import Mathlib

/-!
Verification of the flashcard scheduling core of the `learning` repository.

Shallow embedding conventions:
* JS `number` values are modelled as `ℚ` where fractional values occur
  (ease factors, scores) and as `ℤ` where the code only ever produces
  integers (intervals, repetition counts, timestamps, quality grades).
* ISO date strings are represented by their epoch values (`ℤ`): the code
  only ever compares them or adds day offsets, so the order-isomorphic
  integer model is faithful.
* `Math.round` (round half toward +∞) is modelled by `jsRound`.
* TS optional fields (`x?: T`, i.e. `T | undefined`) become `Option`.
-/

/-- JS `Math.round`: rounds half toward positive infinity. -/
def jsRound (q : ℚ) : ℤ := Int.floor (q + 1/2)

/-- JS `Array.prototype.slice(0, e)`: a negative end index counts from the
end of the array. -/
def jsSliceTo (l : List α) (e : ℤ) : List α :=
  if 0 ≤ e then l.take e.toNat else l.take ((l.length : ℤ) + e).toNat

/-- Model of `Flashcard` from `lib/flashcard-types.ts`.  The unused presentation
fields (`chapter`, `section`, `visualMedia`) are omitted: none of the
embedded functions reads them.  Note the interface has *no* `category`
field, which matters for `createDeliberatePracticeDeck`'s
`card.category` access. -/
structure Flashcard where
  id : String
  front : String
  back : String
  difficulty : String
  easeFactor : ℚ
  interval : ℤ
  repetitions : ℤ
  nextReviewDate : ℤ
  lastReviewDate : Option ℤ
  tags : Option (List String)
deriving DecidableEq, Repr

/-- Model of `FlashcardDeck` from `lib/flashcard-types.ts`.  The deck has a `name`
field; it has *no* `title` field (relevant to `analyzeWeaknessPatterns`).
Timestamps are epoch values. -/
structure FlashcardDeck where
  id : String
  name : String
  description : String
  cards : List Flashcard
  createdAt : ℤ
  updatedAt : ℤ
  tags : Option (List String)
  category : Option String
deriving DecidableEq, Repr

/-- Model of `calculateNextReview` from `lib/flashcard.ts` (`src/gpa.ts` block):
the SM-2 transition.  `now` stands for `new Date()`; day offsets are added
directly to the epoch value. -/
def calculateNextReview (now : ℤ) (card : Flashcard) (quality : ℤ) : Flashcard :=
  let reps := card.repetitions
  let int0 := card.interval
  let ef0 := card.easeFactor
  let ri : ℤ × ℤ :=
    if quality < 3 then
      (0, 1)
    else
      (reps + 1,
        if reps = 0 then 1
        else if reps = 1 then 6
        else jsRound ((int0 : ℚ) * ef0))
  let ef1 : ℚ := ef0 + (0.1 - (5 - (quality : ℚ)) * (0.08 + (5 - (quality : ℚ)) * 0.02))
  let ef2 : ℚ := if ef1 < 1.3 then 1.3 else ef1
  { card with
    easeFactor := ef2
    interval := ri.2
    repetitions := ri.1
    lastReviewDate := some now
    nextReviewDate := now + ri.2
    difficulty := if quality ≥ 4 then "easy" else if quality ≥ 3 then "medium" else "hard" }

/-- A concrete card used by the closed sample theorems. -/
def sampleCard : Flashcard :=
  { id := "card-1"
    front := "front"
    back := "back"
    difficulty := "medium"
    easeFactor := 2.5
    interval := 6
    repetitions := 2
    nextReviewDate := 0
    lastReviewDate := none
    tags := none }

/-- Claim C1: for quality in 0..5, `calculateNextReview` resets the
repetition count to 0 and the interval to 1 on failure (quality < 3), and
on success increments the repetition count and sets the interval to 1 /
6 / round(interval × ease-factor) according to the old repetition
count. -/
theorem claim1_reviewTransition (now : ℤ) (card : Flashcard) (quality : ℤ)
    (h0 : 0 ≤ quality) (h5 : quality ≤ 5) :
    (quality < 3 →
      (calculateNextReview now card quality).repetitions = 0 ∧
      (calculateNextReview now card quality).interval = 1) ∧
    (3 ≤ quality →
      (calculateNextReview now card quality).repetitions = card.repetitions + 1 ∧
      (calculateNextReview now card quality).interval =
        (if card.repetitions = 0 then 1
         else if card.repetitions = 1 then 6
         else jsRound ((card.interval : ℚ) * card.easeFactor))) := by
  constructor
  · intro hlt
    simp [calculateNextReview, hlt]
  · intro hge
    have hlt : ¬ quality < 3 := not_lt.mpr hge
    simp [calculateNextReview, hlt]

/-- Witness for C1: the spec's concrete scenario.  A card with ease-factor
2.5, interval 6, repetition count 2, reviewed at quality 4, yields
ease-factor 2.5, interval 15, repetition count 3. -/
theorem claim1_witness :
    (calculateNextReview 0 sampleCard 4).easeFactor = 2.5 ∧
    (calculateNextReview 0 sampleCard 4).interval = 15 ∧
    (calculateNextReview 0 sampleCard 4).repetitions = 3 := by
  have h := claim1_reviewTransition 0 sampleCard 4 (by norm_num) (by norm_num)
  obtain ⟨hr, hi⟩ := h.2 (by norm_num)
  refine ⟨?_, ?_, ?_⟩
  · simp [calculateNextReview, sampleCard]
    norm_num
  · rw [hi]
    simp [sampleCard, jsRound]
    norm_num
  · rw [hr]
    rfl

/-- One review step never leaves the ease factor below 1.3: the final
clamp guarantees it whatever the inputs are. -/
theorem easeFactor_step_ge (now : ℤ) (card : Flashcard) (q : ℤ) :
    (1.3 : ℚ) ≤ (calculateNextReview now card q).easeFactor := by
  simp only [calculateNextReview]
  split
  · norm_num
  · next h => exact le_of_not_lt h

/-- Claim C2: starting from a card whose ease factor is at least 1.3,
after any number of review steps with qualities in 0..5 the ease factor
is still at least 1.3 (every prefix of the review sequence is covered). -/
theorem claim2_easeFactor_invariant (card : Flashcard) (h : (1.3 : ℚ) ≤ card.easeFactor)
    (now : ℤ) (qs : List ℤ) (hq : ∀ q ∈ qs, 0 ≤ q ∧ q ≤ 5) (n : ℕ) :
    (1.3 : ℚ) ≤ ((qs.take n).foldl (fun c q => calculateNextReview now c q) card).easeFactor := by
  induction qs generalizing card n with
  | nil => simpa using h
  | cons q qs ih =>
    cases n with
    | zero => simpa using h
    | succ n =>
      simp only [List.take_succ_cons, List.foldl_cons]
      exact ih (calculateNextReview now card q) (easeFactor_step_ge now card q)
        (fun r hr => hq r (List.mem_cons_of_mem q hr)) n

/-- Witness for C2: a thousand consecutive quality-0 reviews starting from
the sample card (ease 2.5) leave the ease factor at least 1.3. -/
theorem claim2_witness :
    (1.3 : ℚ) ≤ (((List.replicate 1000 (0 : ℤ)).take 1000).foldl
      (fun c q => calculateNextReview 0 c q) sampleCard).easeFactor :=
  claim2_easeFactor_invariant sampleCard (by norm_num [sampleCard]) 0
    (List.replicate 1000 0)
    (by
      intro q hq
      obtain rfl := List.eq_of_mem_replicate hq
      norm_num) 1000

/-- Counterexample to C3 as stated: at the out-of-range quality 6 the code
does not fail — it returns an ordinary updated state through the success
branch (repetition count 3, ease factor 2.5 + 0.16 = 2.66); the raw
quality even flows into the ease-factor formula. -/
theorem claim3_counterexample :
    (calculateNextReview 0 sampleCard 6).repetitions = sampleCard.repetitions + 1 ∧
    (calculateNextReview 0 sampleCard 6).easeFactor = 2.66 := by
  constructor
  · rfl
  · simp [calculateNextReview, sampleCard]
    norm_num

/-- Claim C3 amended: `calculateNextReview` performs no range check on
quality.  A quality above 5 is silently processed by the success branch
(repetition count incremented, interval advanced by the usual rule) and a
quality below 0 by the failure branch (repetition count 0, interval 1);
no error is ever signalled. -/
theorem claim3_no_validation (now : ℤ) (card : Flashcard) (quality : ℤ) :
    (5 < quality →
      (calculateNextReview now card quality).repetitions = card.repetitions + 1 ∧
      (calculateNextReview now card quality).interval =
        (if card.repetitions = 0 then 1
         else if card.repetitions = 1 then 6
         else jsRound ((card.interval : ℚ) * card.easeFactor))) ∧
    (quality < 0 →
      (calculateNextReview now card quality).repetitions = 0 ∧
      (calculateNextReview now card quality).interval = 1) := by
  constructor
  · intro hgt
    have hlt : ¬ quality < 3 := by omega
    simp [calculateNextReview, hlt]
  · intro hneg
    have hlt : quality < 3 := by omega
    simp [calculateNextReview, hlt]

/-- Witness for the amended C3 at quality 6 and quality -1. -/
theorem claim3_witness :
    (calculateNextReview 0 sampleCard 6).repetitions = 3 ∧
    (calculateNextReview 0 sampleCard (-1)).interval = 1 := by
  refine ⟨?_, ?_⟩
  · have h := (claim3_no_validation 0 sampleCard 6).1 (by norm_num)
    rw [h.1]
    rfl
  · exact ((claim3_no_validation 0 sampleCard (-1)).2 (by norm_num)).2

/-- The difficulty rank used by the study-order comparator
(`diffMap` in `sortCardsForStudy`, with `?? 1` for unknown labels). -/
def diffMap (d : String) : ℤ :=
  if d = "hard" then 0 else if d = "medium" then 1 else if d = "easy" then 2 else 1

/-- The comparator passed to `Array.prototype.sort` in `sortCardsForStudy`:
next-review date ascending, then difficulty rank ascending, then ease
factor ascending. -/
def compareCardsForStudy (a b : Flashcard) : ℚ :=
  let dateDiff : ℚ := (a.nextReviewDate : ℚ) - (b.nextReviewDate : ℚ)
  if dateDiff ≠ 0 then dateDiff
  else
    let diffDiff : ℚ := (diffMap a.difficulty : ℚ) - (diffMap b.difficulty : ℚ)
    if diffDiff ≠ 0 then diffDiff
    else a.easeFactor - b.easeFactor

/-- Model of `sortCardsForStudy` from `lib/flashcard.ts`: `[...cards].sort(cmp)`.
`Array.prototype.sort` is a stable sort by the comparator, modelled by the
stable `List.mergeSort`. -/
def sortCardsForStudy (cards : List Flashcard) : List Flashcard :=
  cards.mergeSort (fun a b => decide (compareCardsForStudy a b ≤ 0))

/-- Difficulty severity in the spec's sense: hard > medium > easy, an
unknown label counting as medium. -/
def difficultySeverity (d : String) : ℤ :=
  if d = "hard" then 3 else if d = "medium" then 2 else if d = "easy" then 1 else 2

/-- The study ordering as the spec states it: next-review timestamp
ascending, then difficulty severity descending, then ease factor
ascending. -/
def studyOrderLe (a b : Flashcard) : Prop :=
  a.nextReviewDate < b.nextReviewDate ∨
    (a.nextReviewDate = b.nextReviewDate ∧
      (difficultySeverity b.difficulty < difficultySeverity a.difficulty ∨
        (difficultySeverity a.difficulty = difficultySeverity b.difficulty ∧
          a.easeFactor ≤ b.easeFactor)))

theorem difficultySeverity_eq (d : String) : difficultySeverity d = 3 - diffMap d := by
  unfold difficultySeverity diffMap
  split_ifs <;> norm_num

theorem compareCardsForStudy_le_iff (a b : Flashcard) :
    compareCardsForStudy a b ≤ 0 ↔ studyOrderLe a b := by
  unfold compareCardsForStudy studyOrderLe
  rw [difficultySeverity_eq, difficultySeverity_eq]
  by_cases hd : a.nextReviewDate = b.nextReviewDate
  · by_cases he : diffMap a.difficulty = diffMap b.difficulty
    · simp [hd, he]
    · have hne : (diffMap a.difficulty : ℚ) - (diffMap b.difficulty : ℚ) ≠ 0 := by
        intro h
        exact he (by exact_mod_cast sub_eq_zero.mp h)
      simp only [hd, sub_self, ne_eq, not_true_eq_false, if_false, if_pos hne,
        lt_self_iff_false, false_or, true_and, if_neg (not_not.mpr rfl)]
      constructor
      · intro h
        left
        have : (diffMap a.difficulty : ℚ) ≤ (diffMap b.difficulty : ℚ) := by linarith
        have hle : diffMap a.difficulty ≤ diffMap b.difficulty := by exact_mod_cast this
        omega
      · rintro (h | ⟨h, _⟩)
        · have : diffMap a.difficulty ≤ diffMap b.difficulty := by omega
          have : (diffMap a.difficulty : ℚ) ≤ (diffMap b.difficulty : ℚ) := by exact_mod_cast this
          linarith
        · omega
  · have hne : (a.nextReviewDate : ℚ) - (b.nextReviewDate : ℚ) ≠ 0 := by
      intro h
      exact hd (by exact_mod_cast sub_eq_zero.mp h)
    simp only [ne_eq, hne, not_false_eq_true, if_pos, hd, false_and, or_false]
    constructor
    · intro h
      have : (a.nextReviewDate : ℚ) ≤ (b.nextReviewDate : ℚ) := by linarith
      have hle : a.nextReviewDate ≤ b.nextReviewDate := by exact_mod_cast this
      omega
    · intro h
      have : (a.nextReviewDate : ℚ) ≤ (b.nextReviewDate : ℚ) := by exact_mod_cast le_of_lt h
      linarith

theorem studyOrderLe_trans (a b c : Flashcard) :
    studyOrderLe a b → studyOrderLe b c → studyOrderLe a c := by
  unfold studyOrderLe
  rintro (h | ⟨h1, h2 | ⟨h2, h3⟩⟩) (g | ⟨g1, g2 | ⟨g2, g3⟩⟩) <;>
    first
      | (left; omega)
      | (right; constructor; · omega
         first
           | (left; omega)
           | (right; constructor; · omega
              linarith))

theorem studyOrderLe_total (a b : Flashcard) : studyOrderLe a b ∨ studyOrderLe b a := by
  unfold studyOrderLe
  rcases lt_trichotomy a.nextReviewDate b.nextReviewDate with h | h | h
  · left; left; omega
  · rcases lt_trichotomy (difficultySeverity a.difficulty) (difficultySeverity b.difficulty)
      with g | g | g
    · right; right; exact ⟨h.symm, Or.inl g⟩
    · rcases le_total a.easeFactor b.easeFactor with e | e
      · left; right; exact ⟨h, Or.inr ⟨g, e⟩⟩
      · right; right; exact ⟨h.symm, Or.inr ⟨g.symm, e⟩⟩
    · left; right; exact ⟨h, Or.inl g⟩
  · right; left; omega

/-- Boolean form of the comparator ordering, as used by the sort. -/
def studyLeB (a b : Flashcard) : Bool := decide (compareCardsForStudy a b ≤ 0)

theorem studyLeB_trans (a b c : Flashcard) :
    studyLeB a b = true → studyLeB b c = true → studyLeB a c = true := by
  simp only [studyLeB, decide_eq_true_eq, compareCardsForStudy_le_iff]
  exact studyOrderLe_trans a b c

theorem studyLeB_total (a b : Flashcard) : (studyLeB a b || studyLeB b a) = true := by
  simp only [studyLeB, Bool.or_eq_true, decide_eq_true_eq, compareCardsForStudy_le_iff]
  exact studyOrderLe_total a b

/-- The three-part sort key of a card. -/
def studyKey (c : Flashcard) : ℤ × ℤ × ℚ :=
  (c.nextReviewDate, difficultySeverity c.difficulty, c.easeFactor)

theorem studyLeB_of_key_eq {a b : Flashcard} (h : studyKey a = studyKey b) :
    studyLeB a b = true := by
  obtain ⟨h1, h2, h3⟩ := Prod.mk.injEq .. ▸ Prod.ext_iff.mp h
  simp only [studyLeB, decide_eq_true_eq, compareCardsForStudy_le_iff, studyOrderLe]
  right
  refine ⟨h1, Or.inr ⟨?_, le_of_eq ?_⟩⟩
  · simpa using h2
  · simpa using h3

theorem sortCardsForStudy_eq_mergeSort (cards : List Flashcard) :
    sortCardsForStudy cards = cards.mergeSort studyLeB := rfl

/-- Claim C4: `sortCardsForStudy` permutes the input, orders it by
next-review timestamp ascending, then difficulty severity descending,
then ease factor ascending, and is stable: for every value of the
three-part key, the subsequence of cards carrying that key is unchanged
(so key-equal cards keep their original relative order). -/
theorem claim4_sortCardsForStudy (cards : List Flashcard) :
    (sortCardsForStudy cards).Perm cards ∧
    List.Pairwise studyOrderLe (sortCardsForStudy cards) ∧
    (∀ k : ℤ × ℤ × ℚ,
      (sortCardsForStudy cards).filter (fun c => decide (studyKey c = k)) =
        cards.filter (fun c => decide (studyKey c = k))) := by
  refine ⟨?_, ?_, ?_⟩
  · rw [sortCardsForStudy_eq_mergeSort]
    exact List.mergeSort_perm cards studyLeB
  · rw [sortCardsForStudy_eq_mergeSort]
    have h := List.sorted_mergeSort studyLeB_trans studyLeB_total cards
    exact h.imp (fun hab => (compareCardsForStudy_le_iff _ _).mp (by simpa [studyLeB] using hab))
  · intro k
    set p : Flashcard → Bool := fun c => decide (studyKey c = k) with hp
    have hmemp : ∀ c, p c = true ↔ studyKey c = k := by
      intro c
      simp [hp]
    have hpair : List.Pairwise (fun a b => studyLeB a b = true) (cards.filter p) := by
      apply List.pairwise_of_forall_mem_list
      intro a ha b hb
      have hka : studyKey a = k := (hmemp a).mp (List.of_mem_filter ha)
      have hkb : studyKey b = k := (hmemp b).mp (List.of_mem_filter hb)
      exact studyLeB_of_key_eq (hka.trans hkb.symm)
    have hsub : (cards.filter p).Sublist (cards.mergeSort studyLeB) :=
      List.sublist_mergeSort studyLeB_trans studyLeB_total hpair (List.filter_sublist cards)
    have hsub2 : (cards.filter p).Sublist ((cards.mergeSort studyLeB).filter p) := by
      have := List.Sublist.filter p hsub
      rwa [List.filter_filter, show ((fun c => p c && p c) = p) from funext fun c => Bool.and_self _]
        at this
    have hlen : ((cards.mergeSort studyLeB).filter p).length = (cards.filter p).length :=
      ((List.mergeSort_perm cards studyLeB).filter p).length_eq
    rw [sortCardsForStudy_eq_mergeSort]
    exact (hsub2.eq_of_length hlen.symm).symm

/-- Model of `AdaptiveFeedback` from `lib/evidence-learning.ts`. -/
structure AdaptiveFeedback where
  level : String
  message : String
  suggestedAction : String
  adjustedDifficulty : String
deriving DecidableEq, Repr

/-- Default of the `responseTimeMs` parameter of `getAdaptiveFeedback`. -/
def defaultResponseTimeMs : ℤ := 10000

/-- Default of the `streak` parameter of `getAdaptiveFeedback`. -/
def defaultStreak : ℤ := 0

/-- Model of `getAdaptiveFeedback` from `lib/evidence-learning.ts`.  The `card`
parameter is part of the signature but unused by the body. -/
def getAdaptiveFeedback (card : Flashcard) (isCorrect : Bool)
    (responseTimeMs : ℤ) (streak : ℤ) : AdaptiveFeedback :=
  let fastThreshold : ℤ := 8000
  if isCorrect ∧ responseTimeMs < fastThreshold ∧ streak ≥ 2 then
    { level := "excellent"
      message := "탁월합니다! 빠르고 정확하게 답변했습니다."
      suggestedAction := "이 카드의 복습 간격을 늘려도 됩니다."
      adjustedDifficulty := "easy" }
  else if isCorrect ∧ responseTimeMs < fastThreshold then
    { level := "good"
      message := "잘 했습니다! 정확한 답변입니다."
      suggestedAction := "현재 복습 간격을 유지하세요."
      adjustedDifficulty := "easy" }
  else if isCorrect then
    { level := "good"
      message := "정답입니다. 조금 더 빠르게 떠올릴 수 있도록 복습해보세요."
      suggestedAction := "복습 간격을 약간 줄여서 빠른 회상을 연습하세요."
      adjustedDifficulty := "medium" }
  else if streak = 0 then
    { level := "struggling"
      message := "이 개념은 아직 어려운 부분인 것 같습니다."
      suggestedAction := "정답을 확인한 후, 내일 다시 복습해보세요."
      adjustedDifficulty := "hard" }
  else
    { level := "needs_review"
      message := "틀렸지만, 이전에 잘 했던 내용입니다. 다시 복습하세요."
      suggestedAction := "카드를 다시 보고 24시간 후에 재복습하세요."
      adjustedDifficulty := "medium" }

/-- Claim C5: `getAdaptiveFeedback` realises exactly the ordered decision
table (tier and difficulty adjustment), and the defaults for an unknown
response time and streak are 10000 ms and 0. -/
theorem claim5_adaptiveFeedback (card : Flashcard) (isCorrect : Bool)
    (rt streak : ℤ) :
    (isCorrect = true → rt < 8000 → 2 ≤ streak →
      (getAdaptiveFeedback card isCorrect rt streak).level = "excellent" ∧
      (getAdaptiveFeedback card isCorrect rt streak).adjustedDifficulty = "easy") ∧
    (isCorrect = true → rt < 8000 → streak < 2 →
      (getAdaptiveFeedback card isCorrect rt streak).level = "good" ∧
      (getAdaptiveFeedback card isCorrect rt streak).adjustedDifficulty = "easy") ∧
    (isCorrect = true → 8000 ≤ rt →
      (getAdaptiveFeedback card isCorrect rt streak).level = "good" ∧
      (getAdaptiveFeedback card isCorrect rt streak).adjustedDifficulty = "medium") ∧
    (isCorrect = false → streak = 0 →
      (getAdaptiveFeedback card isCorrect rt streak).level = "struggling" ∧
      (getAdaptiveFeedback card isCorrect rt streak).adjustedDifficulty = "hard") ∧
    (isCorrect = false → streak ≠ 0 →
      (getAdaptiveFeedback card isCorrect rt streak).level = "needs_review" ∧
      (getAdaptiveFeedback card isCorrect rt streak).adjustedDifficulty = "medium") ∧
    defaultResponseTimeMs = 10000 ∧ defaultStreak = 0 := by
  refine ⟨?_, ?_, ?_, ?_, ?_, rfl, rfl⟩
  · intro hc h1 h2
    simp [getAdaptiveFeedback, hc, h1, h2]
  · intro hc h1 h2
    have : ¬ (2 : ℤ) ≤ streak := by omega
    simp [getAdaptiveFeedback, hc, h1, this]
  · intro hc h1
    have : ¬ rt < 8000 := by omega
    simp [getAdaptiveFeedback, hc, this]
  · intro hc h1
    simp [getAdaptiveFeedback, hc, h1]
  · intro hc h1
    simp [getAdaptiveFeedback, hc, h1]

/-- Witness for C5: the spec's concrete scenario — an incorrect answer in
3000 ms with streak 0 classifies as struggling / hard. -/
theorem claim5_witness :
    (getAdaptiveFeedback sampleCard false 3000 0).level = "struggling" ∧
    (getAdaptiveFeedback sampleCard false 3000 0).adjustedDifficulty = "hard" :=
  (claim5_adaptiveFeedback sampleCard false 3000 0).2.2.2.1 rfl rfl

/-- One round of the round-robin interleaving in `createInterleavedDeck`:
for a fixed index `i`, each group contributes its `i`-th card if it has
one (`if (i < group.length) push(group[i])`). -/
def rrRound (groups : List (List α)) (i : ℕ) : List α :=
  groups.filterMap (fun g => g[i]?)

/-- Model of `Math.max(...cardGroups.map(g => g.length), 0)`. -/
def rrMaxLen (groups : List (List α)) : ℕ :=
  (groups.map List.length).foldr max 0

/-- The round-robin branch of `createInterleavedDeck`: for
`i = 0 .. maxLen - 1` append round `i`. -/
def roundRobin (groups : List (List α)) : List α :=
  ((List.range (rrMaxLen groups)).map (rrRound groups)).flatten

/-- Tags every card with the index of its source group (indices starting
at `k`); used to reason about card origins in the interleaved output. -/
def tagFrom (k : ℕ) : List (List α) → List (List (ℕ × α))
  | [] => []
  | g :: gs => g.map (fun c => (k, c)) :: tagFrom (k + 1) gs

/-- Tags every card with the index of its source group. -/
def tagDecks (groups : List (List α)) : List (List (ℕ × α)) :=
  tagFrom 0 groups

theorem rrRound_cons (g : List α) (gs : List (List α)) (i : ℕ) :
    rrRound (g :: gs) i = g[i]?.toList ++ rrRound gs i := by
  cases h : g[i]? <;> simp [rrRound, List.filterMap_cons, h]

theorem rrRound_nil (i : ℕ) : rrRound ([] : List (List α)) i = [] := rfl

theorem le_foldr_max {l : List ℕ} {n : ℕ} (h : n ∈ l) : n ≤ l.foldr max 0 := by
  induction l with
  | nil => cases h
  | cons a l ih =>
    rcases List.mem_cons.mp h with rfl | h
    · exact le_max_left _ _
    · exact le_trans (ih h) (le_max_right _ _)

theorem exists_mem_of_lt_foldr_max {l : List ℕ} {i : ℕ} (h : i < l.foldr max 0) :
    ∃ n ∈ l, i < n := by
  induction l with
  | nil => simp at h
  | cons a l ih =>
    rcases lt_max_iff.mp h with h | h
    · exact ⟨a, List.mem_cons_self a l, h⟩
    · obtain ⟨n, hn, hin⟩ := ih h
      exact ⟨n, List.mem_cons_of_mem a hn, hin⟩

theorem rrRound_ne_nil {groups : List (List α)} {i : ℕ} (h : i < rrMaxLen groups) :
    rrRound groups i ≠ [] := by
  obtain ⟨n, hn, hin⟩ := exists_mem_of_lt_foldr_max h
  obtain ⟨g, hg, rfl⟩ := List.mem_map.mp hn
  have : g[i] ∈ rrRound groups i := by
    apply List.mem_filterMap.mpr
    exact ⟨g, hg, by simp [List.getElem?_eq_getElem hin]⟩
  exact List.ne_nil_of_mem this

theorem length_map_tagFrom (k : ℕ) (groups : List (List α)) :
    (tagFrom k groups).map List.length = groups.map List.length := by
  induction groups generalizing k with
  | nil => rfl
  | cons g gs ih => simp [tagFrom, ih]

theorem rrMaxLen_tagDecks (groups : List (List α)) :
    rrMaxLen (tagDecks groups) = rrMaxLen groups := by
  unfold rrMaxLen tagDecks
  rw [length_map_tagFrom]

theorem fst_le_of_mem_rrRound_tagFrom {k : ℕ} {groups : List (List α)} {i : ℕ}
    {x : ℕ × α} (h : x ∈ rrRound (tagFrom k groups) i) : k ≤ x.1 := by
  induction groups generalizing k with
  | nil => cases h
  | cons g gs ih =>
    rw [tagFrom, rrRound_cons] at h
    rcases List.mem_append.mp h with h | h
    · rw [Option.mem_toList, Option.mem_def, List.getElem?_map] at h
      obtain ⟨c, hc, rfl⟩ := Option.map_eq_some'.mp h
      exact le_refl k
    · exact le_trans (Nat.le_succ k) (ih h)

theorem pairwise_fst_lt_rrRound_tagFrom (k : ℕ) (groups : List (List α)) (i : ℕ) :
    List.Pairwise (fun x y : ℕ × α => x.1 < y.1) (rrRound (tagFrom k groups) i) := by
  induction groups generalizing k with
  | nil => exact List.Pairwise.nil
  | cons g gs ih =>
    rw [tagFrom, rrRound_cons]
    apply List.pairwise_append.mpr
    refine ⟨?_, ih (k + 1), ?_⟩
    · cases h : (g.map (fun c => (k, c)))[i]? <;> simp
    · intro x hx y hy
      rw [Option.mem_toList, Option.mem_def, List.getElem?_map] at hx
      obtain ⟨c, hc, rfl⟩ := Option.map_eq_some'.mp hx
      exact lt_of_lt_of_le (Nat.lt_succ_self k) (fst_le_of_mem_rrRound_tagFrom hy)

theorem mem_rrRound_tagFrom_of_le {k : ℕ} {groups : List (List α)} {i j : ℕ}
    (hij : i ≤ j) {x : ℕ × α} (h : x ∈ rrRound (tagFrom k groups) j) :
    ∃ y ∈ rrRound (tagFrom k groups) i, y.1 = x.1 := by
  induction groups generalizing k with
  | nil => cases h
  | cons g gs ih =>
    rw [tagFrom, rrRound_cons] at h ⊢
    rcases List.mem_append.mp h with h | h
    · rw [Option.mem_toList, Option.mem_def, List.getElem?_map] at h
      obtain ⟨c, hc, rfl⟩ := Option.map_eq_some'.mp h
      have hj : j < g.length := (List.getElem?_eq_some_iff.mp hc).1
      have hi : i < g.length := lt_of_le_of_lt hij hj
      refine ⟨(k, g[i]), ?_, rfl⟩
      apply List.mem_append.mpr
      left
      rw [Option.mem_toList, Option.mem_def, List.getElem?_map,
        List.getElem?_eq_getElem hi]
      rfl
    · obtain ⟨y, hy, hyx⟩ := ih h
      exact ⟨y, List.mem_append.mpr (Or.inr hy), hyx⟩

theorem rrRound_map (f : α → β) (groups : List (List α)) (i : ℕ) :
    rrRound (groups.map (List.map f)) i = (rrRound groups i).map f := by
  induction groups with
  | nil => rfl
  | cons g gs ih =>
    rw [List.map_cons, rrRound_cons, rrRound_cons, ih, List.map_append,
      List.getElem?_map]
    cases g[i]? <;> simp

theorem rrMaxLen_map_map (f : α → β) (groups : List (List α)) :
    rrMaxLen (groups.map (List.map f)) = rrMaxLen groups := by
  unfold rrMaxLen
  rw [List.map_map]
  congr 1
  apply List.map_congr_left
  intro g _
  simp

theorem roundRobin_map (f : α → β) (groups : List (List α)) :
    roundRobin (groups.map (List.map f)) = (roundRobin groups).map f := by
  unfold roundRobin
  rw [rrMaxLen_map_map, List.map_flatten, List.map_map]
  congr 1
  apply List.map_congr_left
  intro i _
  exact rrRound_map f groups i

theorem tagFrom_untag (k : ℕ) (groups : List (List α)) :
    (tagFrom k groups).map (List.map Prod.snd) = groups := by
  induction groups generalizing k with
  | nil => rfl
  | cons g gs ih => simp [tagFrom, ih, List.map_map, Function.comp]

theorem roundRobin_tagDecks_untag (groups : List (List α)) :
    roundRobin groups = (roundRobin (tagDecks groups)).map Prod.snd := by
  conv_lhs => rw [← tagFrom_untag 0 groups]
  exact roundRobin_map Prod.snd (tagFrom 0 groups)

/-- Key structural fact behind the round-robin guarantee: in a
concatenation of blocks whose origin labels are strictly increasing
inside each block, whose label support only shrinks from one block to a
later one, and which are all nonempty, two adjacent equal labels force
every later element to carry that same label. -/
theorem flatten_adjacent_origin (R : List (List (ℕ × α)))
    (H1 : ∀ r ∈ R, List.Pairwise (fun x y : ℕ × α => x.1 < y.1) r)
    (H2 : ∀ i j, ∀ hi : i < R.length, ∀ hj : j < R.length, i ≤ j →
      ∀ x ∈ R[j], ∃ y ∈ R[i], y.1 = x.1)
    (H3 : ∀ r ∈ R, r ≠ [])
    (p q : List (ℕ × α)) (a b : ℕ × α)
    (hsplit : R.flatten = p ++ a :: b :: q) (hab : a.1 = b.1) :
    ∀ c ∈ q, c.1 = a.1 := by
  induction R generalizing p with
  | nil =>
    rw [List.flatten_nil] at hsplit
    cases p <;> simp at hsplit
  | cons r R' ih =>
    rw [List.flatten_cons] at hsplit
    rcases List.append_eq_append_iff.mp hsplit with ⟨as, hp, hjoin⟩ | ⟨cs, hr, hcs⟩
    · -- the adjacent pair lies entirely inside R'.flatten
      refine ih ?_ ?_ ?_ as hjoin
      · exact fun s hs => H1 s (List.mem_cons_of_mem r hs)
      · intro i j hi hj hij x hx
        have := H2 (i + 1) (j + 1) (by simpa using Nat.succ_lt_succ hi)
          (by simpa using Nat.succ_lt_succ hj) (Nat.succ_le_succ hij)
        simp only [List.getElem_cons_succ] at this
        exact this x hx
      · exact fun s hs => H3 s (List.mem_cons_of_mem r hs)
    · -- r = p ++ cs and cs ++ R'.flatten = a :: b :: q
      match cs, hcs with
      | [], hcs =>
        rw [List.nil_append] at hcs
        refine ih ?_ ?_ ?_ [] (by simpa using hcs.symm)
        · exact fun s hs => H1 s (List.mem_cons_of_mem r hs)
        · intro i j hi hj hij x hx
          have := H2 (i + 1) (j + 1) (by simpa using Nat.succ_lt_succ hi)
            (by simpa using Nat.succ_lt_succ hj) (Nat.succ_le_succ hij)
          simp only [List.getElem_cons_succ] at this
          exact this x hx
        · exact fun s hs => H3 s (List.mem_cons_of_mem r hs)
      | [x], hcs =>
        -- a is the last element of r, b is the first element of R'.flatten
        rw [List.cons_append, List.nil_append] at hcs
        injection hcs with hx htail
        subst hx
        have hq : R'.flatten = b :: q := htail.symm
        -- every element of R'.flatten shares a's label
        suffices hall : ∀ c ∈ R'.flatten, c.1 = a.1 by
          intro c hc
          exact hall c (by rw [hq]; exact List.mem_cons_of_mem b hc)
        -- identify the first block of R'
        cases R' with
        | nil => simp at hq
        | cons r' R'' =>
          have hr'ne : r' ≠ [] := H3 r' (by simp)
          cases r' with
          | nil => exact absurd rfl hr'ne
          | cons b' t =>
            rw [List.flatten_cons, List.cons_append] at hq
            injection hq with hb' hq2
            have hbb : b'.1 = b.1 := congrArg Prod.fst hb'
            intro c hc
            obtain ⟨l, hl, hcl⟩ := List.mem_flatten.mp hc
            obtain ⟨j, hj, rfl⟩ := List.mem_iff_getElem.mp hl
            -- compare against block 0 (= r): label of c is at most a's
            have h0 : ∃ y ∈ r, y.1 = c.1 := by
              have h' := H2 0 (j + 1) (by simp) (by simpa using Nat.succ_lt_succ hj) (Nat.zero_le _)
              simp only [List.getElem_cons_succ, List.getElem_cons_zero] at h'
              exact h' c hcl
            -- compare against block 1 (= b' :: t): label of c is at least b's
            have h1 : ∃ y ∈ b' :: t, y.1 = c.1 := by
              have h' := H2 1 (j + 1) (by simp) (by simpa using Nat.succ_lt_succ hj) (by omega)
              simp only [List.getElem_cons_succ, List.getElem_cons_zero] at h'
              exact h' c hcl
            obtain ⟨y0, hy0, hy0c⟩ := h0
            obtain ⟨y1, hy1, hy1c⟩ := h1
            have hle : c.1 ≤ a.1 := by
              rw [hr] at hy0
              rcases List.mem_append.mp hy0 with h | h
              · have hpa := H1 r (List.mem_cons_self r _)
                rw [hr] at hpa
                have := (List.pairwise_append.mp hpa).2.2 y0 h a (List.mem_singleton_self a)
                omega
              · rw [List.mem_singleton.mp h] at hy0c
                omega
            have hge : a.1 ≤ c.1 := by
              rcases List.mem_cons.mp hy1 with h | h
              · rw [h] at hy1c
                omega
              · have hpb := H1 (b' :: t) (List.mem_cons_of_mem r (List.mem_cons_self _ _))
                have := (List.pairwise_cons.mp hpb).1 y1 h
                omega
            omega
      | x :: y :: cs', hcs =>
        -- a and b would be adjacent inside the single block r: impossible
        rw [List.cons_append, List.cons_append] at hcs
        injection hcs with hx hcs2
        injection hcs2 with hy hcs3
        subst hx
        subst hy
        exfalso
        have hpa := H1 r (List.mem_cons_self r _)
        rw [hr] at hpa
        have hsub : [a, b].Sublist (p ++ a :: b :: cs') := by
          apply List.sublist_append_of_sublist_right
          exact (List.cons_sublist_cons.mpr (List.cons_sublist_cons.mpr (List.nil_sublist _)))
        have := List.Pairwise.sublist hsub hpa
        have hlt : a.1 < b.1 := (List.pairwise_cons.mp this).1 b (List.mem_singleton_self b)
        omega

theorem flatten_map_append_perm (l : List ι) (f h : ι → List α) :
    ((l.map fun i => f i ++ h i).flatten).Perm ((l.map f).flatten ++ (l.map h).flatten) := by
  induction l with
  | nil => simp
  | cons a l ih =>
    simp only [List.map_cons, List.flatten_cons]
    refine (ih.append_left (f a ++ h a)).trans ?_
    have h2 : (h a ++ ((l.map f).flatten ++ (l.map h).flatten)).Perm
        ((l.map f).flatten ++ (h a ++ (l.map h).flatten)) := by
      rw [← List.append_assoc, ← List.append_assoc]
      exact List.perm_append_comm.append_right _
    simpa [List.append_assoc] using h2.append_left (f a)

theorem flatten_map_getElem_toList (n : ℕ) (g : List α) :
    ((List.range n).map fun i => g[i]?.toList).flatten = g.take n := by
  induction n with
  | zero => simp
  | succ n ih =>
    rw [List.range_succ, List.map_append, List.flatten_append, ih, List.map_cons,
      List.map_nil, List.flatten_cons, List.flatten_nil, List.append_nil, List.take_succ]

theorem rr_perm_aux (n : ℕ) (groups : List (List α)) (hle : ∀ g ∈ groups, g.length ≤ n) :
    (((List.range n).map (rrRound groups)).flatten).Perm groups.flatten := by
  induction groups with
  | nil =>
    simp [rrRound]
  | cons g gs ih =>
    have h1 : ((List.range n).map (rrRound (g :: gs))) =
        (List.range n).map fun i => g[i]?.toList ++ rrRound gs i := by
      apply List.map_congr_left
      intro i _
      exact rrRound_cons g gs i
    rw [h1, List.flatten_cons]
    refine (flatten_map_append_perm (List.range n) (fun i => g[i]?.toList) (rrRound gs)).trans ?_
    rw [flatten_map_getElem_toList n g,
      List.take_of_length_le (hle g (List.mem_cons_self g gs))]
    exact (ih fun g' hg' => hle g' (List.mem_cons_of_mem g hg')).append_left g

/-- The round-robin output is a permutation of the concatenation of the
input groups: every selected card appears exactly once. -/
theorem roundRobin_perm (groups : List (List α)) :
    (roundRobin groups).Perm groups.flatten := by
  apply rr_perm_aux
  intro g hg
  exact le_foldr_max (List.mem_map.mpr ⟨g, hg, rfl⟩)

/-- The adjacency guarantee for the tagged round-robin run: whenever two
adjacent output cards come from the same source group, every card from
that point on comes from that group (only one group still has cards). -/
theorem roundRobin_tag_adjacent (groups : List (List α)) (p q : List (ℕ × α))
    (a b : ℕ × α) (hsplit : roundRobin (tagDecks groups) = p ++ a :: b :: q)
    (hab : a.1 = b.1) : ∀ c ∈ q, c.1 = a.1 := by
  set T := tagDecks groups with hT
  apply flatten_adjacent_origin ((List.range (rrMaxLen T)).map (rrRound T))
    ?_ ?_ ?_ p q a b hsplit hab
  · intro r hr
    obtain ⟨i, _, rfl⟩ := List.mem_map.mp hr
    exact pairwise_fst_lt_rrRound_tagFrom 0 groups i
  · intro i j hi hj hij x hx
    simp only [List.getElem_map, List.getElem_range] at hx ⊢
    exact mem_rrRound_tagFrom_of_le hij hx
  · intro r hr
    obtain ⟨i, hi, rfl⟩ := List.mem_map.mp hr
    exact rrRound_ne_nil (List.mem_range.mp hi)

/-- Model of `InterleavedConfig` from `lib/flashcard-types.ts` (the unused
`difficultyRange` field is omitted). -/
structure InterleavedConfig where
  deckIds : List String
  cardsPerDeck : ℤ
  shuffleMode : String
deriving DecidableEq, Repr

/-- Swap of two positions of a list (the JS destructuring swap
`[a[i], a[j]] = [a[j], a[i]]`). -/
def listSwap (l : List α) (i j : ℕ) : List α :=
  match l[i]?, l[j]? with
  | some x, some y => (l.set i y).set j x
  | _, _ => l

/-- The Fisher–Yates loop of `createInterleavedDeck`, counting `i` down;
`rng i % (i + 1)` models `Math.floor(Math.random() * (i + 1))`, the
injected random source. -/
def fyAux (rng : ℕ → ℕ) : ℕ → List α → List α
  | 0, arr => arr
  | i + 1, arr => fyAux rng i (listSwap arr (i + 1) (rng (i + 1) % (i + 2)))

/-- Fisher–Yates shuffle (`for (i = length - 1; i > 0; i--)`). -/
def fisherYates (rng : ℕ → ℕ) (l : List α) : List α :=
  fyAux rng (l.length - 1) l

/-- The decks selected by `createInterleavedDeck`: the named subset when
`deckIds` is nonempty, otherwise all decks. -/
def interleaveTargetDecks (allDecks : List FlashcardDeck) (config : InterleavedConfig) :
    List FlashcardDeck :=
  if config.deckIds.length > 0 then
    allDecks.filter (fun d => config.deckIds.contains d.id)
  else allDecks

/-- The per-deck card groups of `createInterleavedDeck`: each selected
deck capped at `cardsPerDeck` cards (all cards when the cap is 0, which
is falsy in JS). -/
def interleaveCardGroups (allDecks : List FlashcardDeck) (config : InterleavedConfig) :
    List (List Flashcard) :=
  (interleaveTargetDecks allDecks config).map
    (fun deck => if config.cardsPerDeck ≠ 0 then jsSliceTo deck.cards config.cardsPerDeck
      else deck.cards)

/-- Model of `createInterleavedDeck` from `lib/evidence-learning.ts`.  Every
`shuffleMode` other than `"round-robin"` takes the `else` (random)
branch.  `now` stands for `Date.now()` and `rng` for the ambient
`Math.random` source. -/
def createInterleavedDeck (now : ℤ) (rng : ℕ → ℕ) (allDecks : List FlashcardDeck)
    (config : InterleavedConfig) : FlashcardDeck :=
  let targetDecks := interleaveTargetDecks allDecks config
  let cardGroups := interleaveCardGroups allDecks config
  let interleavedCards :=
    if config.shuffleMode = "round-robin" then roundRobin cardGroups
    else fisherYates rng cardGroups.flatten
  { id := "interleaved-" ++ toString now
    name := "교차 학습 덱"
    description := toString targetDecks.length ++ "개 덱 혼합 / " ++
      toString interleavedCards.length ++ "장"
    cards := interleavedCards
    createdAt := now
    updatedAt := now
    tags := none
    category := some "interleaved" }

/-- A concrete card with the given id, used by the interleaving samples. -/
def mkCard (s : String) : Flashcard :=
  { id := s
    front := "f"
    back := "b"
    difficulty := "medium"
    easeFactor := 3
    interval := 1
    repetitions := 0
    nextReviewDate := 0
    lastReviewDate := none
    tags := none }

/-- A concrete deck with the given id, name, and cards. -/
def mkDeck (i n : String) (cs : List Flashcard) : FlashcardDeck :=
  { id := i
    name := n
    description := ""
    cards := cs
    createdAt := 0
    updatedAt := 0
    tags := none
    category := none }

/-- A 2-card, a 3-card and a 1-card deck for the round-robin sample. -/
def demoDecks : List FlashcardDeck :=
  [mkDeck "dA" "A" [mkCard "a1", mkCard "a2"],
   mkDeck "dB" "B" [mkCard "b1", mkCard "b2", mkCard "b3"],
   mkDeck "dC" "C" [mkCard "c1"]]

/-- Round-robin configuration selecting all decks, uncapped. -/
def rrConfig : InterleavedConfig :=
  { deckIds := [], cardsPerDeck := 0, shuffleMode := "round-robin" }

/-- Claim C6: in round-robin mode `createInterleavedDeck` outputs each
selected card exactly once (a permutation of the selected groups), the
output is the projection of the origin-tagged round-robin run, and in
that run two adjacent cards from the same source deck force every later
card to come from that deck (only one deck still has cards).  For decks
of sizes 2, 3 and 1 the output is the 6 cards a1 b1 c1 a2 b2 b3 and the
last card comes from the 3-card deck (origin index 1). -/
theorem claim6_roundRobinInterleave :
    (∀ (now : ℤ) (rng : ℕ → ℕ) (allDecks : List FlashcardDeck) (config : InterleavedConfig),
      config.shuffleMode = "round-robin" →
        ((createInterleavedDeck now rng allDecks config).cards).Perm
          (interleaveCardGroups allDecks config).flatten ∧
        (createInterleavedDeck now rng allDecks config).cards =
          (roundRobin (tagDecks (interleaveCardGroups allDecks config))).map Prod.snd) ∧
    (∀ (groups : List (List Flashcard)) (p q : List (ℕ × Flashcard)) (a b : ℕ × Flashcard),
      roundRobin (tagDecks groups) = p ++ a :: b :: q → a.1 = b.1 →
        ∀ c ∈ q, c.1 = a.1) ∧
    ((createInterleavedDeck 0 (fun _ => 0) demoDecks rrConfig).cards =
        [mkCard "a1", mkCard "b1", mkCard "c1", mkCard "a2", mkCard "b2", mkCard "b3"] ∧
      (createInterleavedDeck 0 (fun _ => 0) demoDecks rrConfig).cards.length = 6 ∧
      (roundRobin (tagDecks (interleaveCardGroups demoDecks rrConfig))).getLast? =
        some (1, mkCard "b3")) := by
  refine ⟨?_, ?_, ?_, ?_, ?_⟩
  · intro now rng allDecks config h
    have hc : (createInterleavedDeck now rng allDecks config).cards =
        roundRobin (interleaveCardGroups allDecks config) := by
      simp [createInterleavedDeck, h]
    rw [hc]
    constructor
    · exact roundRobin_perm _
    · exact roundRobin_tagDecks_untag _
  · intro groups p q a b hsplit hab
    exact roundRobin_tag_adjacent groups p q a b hsplit hab
  · rfl
  · rfl
  · rfl

/-- Witness for C6: the general parts applied to concrete inputs — the
permutation statement on the demo decks, and the adjacency statement on
groups of sizes 1 and 3, whose tagged output [(0,a1),(1,b1),(1,b2),(1,b3)]
has the adjacent same-origin pair (1,b1),(1,b2). -/
theorem claim6_witness :
    ((createInterleavedDeck 0 (fun _ => 0) demoDecks rrConfig).cards).Perm
      ((interleaveCardGroups demoDecks rrConfig).flatten) ∧
    ((1 : ℕ), mkCard "b3").1 = ((1 : ℕ), mkCard "b1").1 :=
  ⟨(claim6_roundRobinInterleave.1 0 (fun _ => 0) demoDecks rrConfig rfl).1,
    claim6_roundRobinInterleave.2.1 [[mkCard "a1"], [mkCard "b1", mkCard "b2", mkCard "b3"]]
      [(0, mkCard "a1")] [(1, mkCard "b3")] (1, mkCard "b1") (1, mkCard "b2")
      rfl rfl (1, mkCard "b3") (by simp)⟩

/-- The malformed shuffle mode of the C9 scenario. -/
def weightedConfig : InterleavedConfig :=
  { deckIds := [], cardsPerDeck := 0, shuffleMode := "weighted" }

/-- Counterexample to C9 as stated: with shuffle mode `"weighted"` the
code does not fail — it silently runs the random branch, returning
exactly the deck it returns for mode `"random"`, with all 6 cards
present (here shuffled by the injected zero random source). -/
theorem claim9_counterexample :
    createInterleavedDeck 0 (fun _ => 0) demoDecks weightedConfig =
      createInterleavedDeck 0 (fun _ => 0) demoDecks
        { deckIds := [], cardsPerDeck := 0, shuffleMode := "random" } ∧
    (createInterleavedDeck 0 (fun _ => 0) demoDecks weightedConfig).cards =
      [mkCard "a2", mkCard "b1", mkCard "b2", mkCard "b3", mkCard "c1", mkCard "a1"] := by
  constructor
  · rfl
  · rfl

/-- Claim C9 amended: `createInterleavedDeck` never validates
`shuffleMode`.  Every mode other than `"round-robin"` — `"weighted"`
included — is silently treated exactly like `"random"`: the result is the
very deck produced for mode `"random"`, not an error. -/
theorem claim9_shuffleMode_fallback (now : ℤ) (rng : ℕ → ℕ)
    (allDecks : List FlashcardDeck) (config : InterleavedConfig)
    (h : config.shuffleMode ≠ "round-robin") :
    createInterleavedDeck now rng allDecks config =
      createInterleavedDeck now rng allDecks { config with shuffleMode := "random" } := by
  simp only [createInterleavedDeck, if_neg h,
    if_neg (show ¬ ("random" : String) = "round-robin" by decide)]
  rfl

/-- Witness for the amended C9 at the concrete `"weighted"` config. -/
theorem claim9_witness :
    createInterleavedDeck 0 (fun _ => 0) demoDecks weightedConfig =
      createInterleavedDeck 0 (fun _ => 0) demoDecks
        { weightedConfig with shuffleMode := "random" } :=
  claim9_shuffleMode_fallback 0 (fun _ => 0) demoDecks weightedConfig (by decide)

/-- Model of `DeliberatePracticeConfig` from `lib/flashcard-types.ts` (the unused
`sourceDeckIds` field is omitted).  `maxCards` is declared `number`; the
`Option` admits the runtime-absent case handled by `maxCards || 20`. -/
structure DeliberatePracticeConfig where
  focusAreas : List String
  difficultyLevel : Option String
  maxCards : Option ℤ
  adaptiveThreshold : Option ℚ
deriving DecidableEq, Repr

/-- Model of `difficultyToNumber` from `lib/evidence-learning.ts`. -/
def difficultyToNumber (d : String) : ℤ :=
  if d = "easy" then 1 else if d = "medium" then 2 else if d = "hard" then 3 else 2

/-- JS `String.prototype.includes`: substring containment. -/
def jsIncludes (s t : String) : Bool :=
  (List.range (s.length + 1)).any (fun i => t.toList.isPrefixOf (s.toList.drop i))

/-- The focus-area filter of `createDeliberatePracticeDeck`.  A card
matches when one of the focus areas is one of its lower-cased tags or is
a substring of its category.  `card.category` does not exist on
`Flashcard`, so `card.category || deck.category || ''` evaluates to the
deck category (or the empty string). -/
def deliberateMatch (focusAreas : List String) (deck : FlashcardDeck)
    (card : Flashcard) : Bool :=
  if focusAreas.length > 0 then
    let cardTags := (card.tags.getD []).map String.toLower
    let cardCategory := (deck.category.getD "").toLower
    focusAreas.any (fun area =>
      cardTags.contains area.toLower || jsIncludes cardCategory area.toLower)
  else true

/-- The card-collection pass of `createDeliberatePracticeDeck`. -/
def collectDeliberateCards (allDecks : List FlashcardDeck) (focusAreas : List String) :
    List Flashcard :=
  (allDecks.map (fun deck => deck.cards.filter (deliberateMatch focusAreas deck))).flatten

/-- Ease-factor based synthetic difficulty rank: below 2.0 hard (3),
below 2.5 medium (2), otherwise easy (1). -/
def cardDiffNum (card : Flashcard) : ℤ :=
  if card.easeFactor < 2 then 3 else if card.easeFactor < 2.5 then 2 else 1

/-- The difficulty filter of `createDeliberatePracticeDeck` (skipped when
`difficultyLevel` is falsy). -/
def filterByDifficulty (config : DeliberatePracticeConfig) (cards : List Flashcard) :
    List Flashcard :=
  match config.difficultyLevel with
  | none => cards
  | some d =>
    if d = "" then cards
    else
      cards.filter (fun card =>
        |(cardDiffNum card : ℚ) - (difficultyToNumber d : ℚ)| ≤
          config.adaptiveThreshold.getD 0)

/-- All cards passing both filters, in encounter order. -/
def deliberateMatchingCards (allDecks : List FlashcardDeck)
    (config : DeliberatePracticeConfig) : List Flashcard :=
  filterByDifficulty config (collectDeliberateCards allDecks config.focusAreas)

/-- Model of `const limit = maxCards || 20`. -/
def deliberateLimit (config : DeliberatePracticeConfig) : ℤ :=
  match config.maxCards with
  | none => 20
  | some m => if m = 0 then 20 else m

/-- Model of `createDeliberatePracticeDeck` from `lib/evidence-learning.ts`.
`now` stands for `Date.now()`. -/
def createDeliberatePracticeDeck (now : ℤ) (allDecks : List FlashcardDeck)
    (config : DeliberatePracticeConfig) : FlashcardDeck :=
  let allCards := deliberateMatchingCards allDecks config
  let selectedCards := jsSliceTo allCards (deliberateLimit config)
  let fa := String.intercalate ", " config.focusAreas
  let levelStr := match config.difficultyLevel with
    | some d => if d = "" then "전체" else d
    | none => "전체"
  { id := "deliberate-practice-" ++ toString now
    name := "의도적 연습 덱 (" ++ (if fa = "" then "전체" else fa) ++ ")"
    description := levelStr ++ " 난이도 / " ++ toString selectedCards.length ++ "장"
    cards := selectedCards
    createdAt := now
    updatedAt := now
    tags := none
    category := some "deliberate-practice" }

/-- Claim C10: a falsy `maxCards` (absent or 0) makes
`createDeliberatePracticeDeck` fall back to the default limit 20 — the
deck holds the first min(20, matching) matching cards, not 0 cards —
while a positive `maxCards` is used as the truncation limit. -/
theorem claim10_defaultMaxCards (now : ℤ) (allDecks : List FlashcardDeck)
    (config : DeliberatePracticeConfig) :
    ((config.maxCards = none ∨ config.maxCards = some 0) →
      (createDeliberatePracticeDeck now allDecks config).cards =
        (deliberateMatchingCards allDecks config).take 20 ∧
      (createDeliberatePracticeDeck now allDecks config).cards.length =
        min 20 (deliberateMatchingCards allDecks config).length) ∧
    (∀ m : ℤ, config.maxCards = some m → 0 < m →
      (createDeliberatePracticeDeck now allDecks config).cards =
        (deliberateMatchingCards allDecks config).take m.toNat) := by
  constructor
  · intro h
    have hl : deliberateLimit config = 20 := by
      rcases h with h | h <;> simp [deliberateLimit, h]
    have hc : (createDeliberatePracticeDeck now allDecks config).cards =
        (deliberateMatchingCards allDecks config).take 20 := by
      simp [createDeliberatePracticeDeck, hl, jsSliceTo]
    refine ⟨hc, ?_⟩
    rw [hc, List.length_take]
  · intro m hm hpos
    have hl : deliberateLimit config = m := by
      simp [deliberateLimit, hm]
      omega
    simp [createDeliberatePracticeDeck, hl, jsSliceTo, le_of_lt hpos]

/-- A falsy-`maxCards` configuration for the C10 witness. -/
def dpConfigZero : DeliberatePracticeConfig :=
  { focusAreas := [], difficultyLevel := none, maxCards := some 0,
    adaptiveThreshold := none }

/-- Witness for C10: over the 6-card demo pool with `maxCards = 0` the
deck gets min(20, 6) = 6 cards, not 0. -/
theorem claim10_witness :
    (createDeliberatePracticeDeck 0 demoDecks dpConfigZero).cards.length = 6 := by
  have h := (claim10_defaultMaxCards 0 demoDecks dpConfigZero).1 (Or.inr rfl)
  rw [h.2]
  rfl

/-- The JS answer value union `number | string | boolean` of
`calculateMetacognitionScore`. -/
inductive MetaAnswer where
  | num (n : ℚ)
  | str (s : String)
  | bool (b : Bool)
deriving DecidableEq, Repr

/-- The four question kinds of `MetacognitionQuestion`. -/
inductive MQType where
  | rating
  | yesno
  | selection
  | text
deriving DecidableEq, Repr

/-- Model of `MetacognitionQuestion` from `lib/evidence-learning.ts`. -/
structure MetacognitionQuestion where
  id : String
  text : String
  type : MQType
  scale : Option ℤ
  options : Option (List String)
deriving DecidableEq, Repr

/-- A question counts as answered unless its answer is `undefined` or the
empty string (`answer === undefined || answer === ''`). -/
def isAnswered (answers : String → Option MetaAnswer) (q : MetacognitionQuestion) : Bool :=
  match answers q.id with
  | none => false
  | some (.str s) => !(s = "")
  | some _ => true

/-- Model of `q.scale || 5`: the effective rating scale (0 is falsy). -/
def effScale (q : MetacognitionQuestion) : ℤ :=
  match q.scale with
  | none => 5
  | some s => if s = 0 then 5 else s

/-- JS `Array.prototype.indexOf` on strings: first index or -1. -/
def jsIndexOf (l : List String) (s : String) : ℤ :=
  match l with
  | [] => -1
  | x :: xs =>
    if x = s then 0
    else
      let r := jsIndexOf xs s
      if r = -1 then -1 else r + 1

/-- The (numerator, denominator) contribution of one question in
`calculateMetacognitionScore`'s switch: a skipped question contributes
nothing; rating adds (numeric answer, scale); yes/no adds (1 iff true,
1); selection adds (options.length − indexOf if found else 0,
options.length); free text adds (1 iff a nonempty string, 1). -/
def questionContribution (answers : String → Option MetaAnswer)
    (q : MetacognitionQuestion) : ℚ × ℚ :=
  match answers q.id with
  | none => (0, 0)
  | some answer =>
    if answer = .str "" then (0, 0)
    else
      match q.type with
      | .rating =>
        ((match answer with | .num n => n | _ => 0), ((effScale q : ℤ) : ℚ))
      | .yesno => ((if answer = .bool true then 1 else 0), 1)
      | .selection =>
        let options := q.options.getD []
        let idx : ℤ := match answer with | .str s => jsIndexOf options s | _ => -1
        ((if 0 ≤ idx then (options.length : ℚ) - (idx : ℚ) else 0), (options.length : ℚ))
      | .text =>
        ((match answer with | .str s => if s.length > 0 then 1 else 0 | _ => 0), 1)

/-- The accumulated (totalScore, maxScore) pair of
`calculateMetacognitionScore`. -/
def metaTotals (answers : String → Option MetaAnswer)
    (questions : List MetacognitionQuestion) : ℚ × ℚ :=
  questions.foldl
    (fun acc q =>
      let c := questionContribution answers q
      (acc.1 + c.1, acc.2 + c.2)) (0, 0)

/-- Model of `calculateMetacognitionScore` from `lib/evidence-learning.ts`. -/
def calculateMetacognitionScore (answers : String → Option MetaAnswer)
    (questions : List MetacognitionQuestion) : ℤ :=
  if questions.length = 0 then 0
  else
    let totals := metaTotals answers questions
    if totals.2 > 0 then jsRound (totals.1 / totals.2 * 100) else 0

theorem foldl_pair_add (f : MetacognitionQuestion → ℚ × ℚ)
    (qs : List MetacognitionQuestion) (a : ℚ × ℚ) :
    qs.foldl (fun acc q => (acc.1 + (f q).1, acc.2 + (f q).2)) a =
      (a.1 + (qs.map (fun q => (f q).1)).sum, a.2 + (qs.map (fun q => (f q).2)).sum) := by
  induction qs generalizing a with
  | nil => simp
  | cons q qs ih =>
    rw [List.foldl_cons, ih]
    simp [add_assoc]

theorem metaTotals_eq_sum (answers : String → Option MetaAnswer)
    (qs : List MetacognitionQuestion) :
    metaTotals answers qs =
      ((qs.map (fun q => (questionContribution answers q).1)).sum,
       (qs.map (fun q => (questionContribution answers q).2)).sum) := by
  unfold metaTotals
  rw [foldl_pair_add]
  simp

theorem questionContribution_of_not_answered {answers : String → Option MetaAnswer}
    {q : MetacognitionQuestion} (h : isAnswered answers q = false) :
    questionContribution answers q = (0, 0) := by
  unfold isAnswered at h
  unfold questionContribution
  cases ha : answers q.id with
  | none => rfl
  | some a =>
    rw [ha] at h
    cases a with
    | num n => simp at h
    | bool b => simp at h
    | str s =>
      have hs : s = "" := by simpa using h
      subst hs
      simp

theorem jsIndexOf_spec (l : List String) (s : String) :
    jsIndexOf l s = -1 ∨ (0 ≤ jsIndexOf l s ∧ jsIndexOf l s < l.length) := by
  induction l with
  | nil => left; rfl
  | cons x xs ih =>
    unfold jsIndexOf
    by_cases hx : x = s
    · right
      rw [if_pos hx]
      refine ⟨le_refl 0, ?_⟩
      simp only [List.length_cons]
      push_cast
      omega
    · simp only [hx, if_false]
      rcases ih with h | ⟨h0, h1⟩
      · left
        simp [h]
      · have hne : jsIndexOf xs s ≠ -1 := by omega
        simp only [hne, if_false]
        right
        constructor
        · omega
        · simp only [List.length_cons]
          push_cast
          omega

/-- Well-formedness of rating answers: every *answered* rating question
carries a numeric answer between 0 and its effective scale. -/
def ratingAnswerOk (answers : String → Option MetaAnswer) (q : MetacognitionQuestion) : Prop :=
  q.type = .rating → isAnswered answers q = true →
    ∃ n : ℚ, answers q.id = some (.num n) ∧ 0 ≤ n ∧ n ≤ ((effScale q : ℤ) : ℚ)

theorem questionContribution_bounds {answers : String → Option MetaAnswer}
    {q : MetacognitionQuestion} (h : ratingAnswerOk answers q) :
    0 ≤ (questionContribution answers q).1 ∧
      (questionContribution answers q).1 ≤ (questionContribution answers q).2 := by
  by_cases hans : isAnswered answers q = true
  · unfold isAnswered at hans
    unfold questionContribution
    cases ha : answers q.id with
    | none => simp
    | some answer =>
      rw [ha] at hans
      have hne : ¬ answer = .str "" := by
        intro hc
        subst hc
        simp at hans
      simp only [if_neg hne]
      cases hq : q.type with
      | rating =>
        obtain ⟨n, hn, h0, h1⟩ := h hq (by unfold isAnswered; rw [ha]; exact hans)
        rw [ha] at hn
        have : answer = .num n := by injection hn
        subst this
        simp only
        exact ⟨h0, h1⟩
      | yesno => split_ifs <;> norm_num
      | selection =>
        cases answer with
        | str s =>
          simp only
          rcases jsIndexOf_spec (q.options.getD []) s with hj | ⟨hj0, hj1⟩
          · rw [hj]
            norm_num
          · rw [if_pos hj0]
            have hc1 : (jsIndexOf (q.options.getD []) s : ℚ) <
                ((q.options.getD []).length : ℚ) := by exact_mod_cast hj1
            have hc0 : (0 : ℚ) ≤ (jsIndexOf (q.options.getD []) s : ℚ) := by
              exact_mod_cast hj0
            constructor <;> linarith
        | num n =>
          simp only
          norm_num
        | bool b =>
          simp only
          norm_num
      | text =>
        cases answer with
        | str s => simp only; split_ifs <;> norm_num
        | num n => simp only; norm_num
        | bool b => simp only; norm_num
  · rw [questionContribution_of_not_answered (Bool.not_eq_true _ ▸ hans)]
    simp

theorem metaTotals_bounds {answers : String → Option MetaAnswer}
    {qs : List MetacognitionQuestion} (h : ∀ q ∈ qs, ratingAnswerOk answers q) :
    0 ≤ (metaTotals answers qs).1 ∧ (metaTotals answers qs).1 ≤ (metaTotals answers qs).2 := by
  rw [metaTotals_eq_sum]
  induction qs with
  | nil => simp
  | cons q qs ih =>
    have hq := questionContribution_bounds (h q (List.mem_cons_self q qs))
    have ih' := ih (fun r hr => h r (List.mem_cons_of_mem q hr))
    simp only [List.map_cons, List.sum_cons]
    constructor
    · exact add_nonneg hq.1 ih'.1
    · exact add_le_add hq.2 ih'.2

theorem jsRound_bounds {x : ℚ} (h0 : 0 ≤ x) (h1 : x ≤ 100) :
    0 ≤ jsRound x ∧ jsRound x ≤ 100 := by
  unfold jsRound
  constructor
  · apply Int.le_floor.mpr
    push_cast
    linarith
  · have hlt : (x + 1/2 : ℚ) < ((101 : ℤ) : ℚ) := by push_cast; linarith
    have := Int.floor_lt.mpr hlt
    omega

theorem sum_map_filter_eq {p : MetacognitionQuestion → Bool}
    (f : MetacognitionQuestion → ℚ) (l : List MetacognitionQuestion)
    (h : ∀ x ∈ l, p x = false → f x = 0) :
    ((l.filter p).map f).sum = (l.map f).sum := by
  induction l with
  | nil => rfl
  | cons q qs ih =>
    have ih' := ih (fun r hr hp => h r (List.mem_cons_of_mem q hr) hp)
    by_cases hp : p q
    · rw [List.filter_cons_of_pos hp]
      simp [ih']
    · rw [List.filter_cons_of_neg hp]
      rw [List.map_cons, List.sum_cons, h q (List.mem_cons_self q qs) (Bool.not_eq_true _ ▸ hp), ih']
      ring

theorem metaTotals_filter_eq (answers : String → Option MetaAnswer)
    (qs : List MetacognitionQuestion) :
    metaTotals answers (qs.filter (isAnswered answers)) = metaTotals answers qs := by
  rw [metaTotals_eq_sum, metaTotals_eq_sum]
  have h1 := sum_map_filter_eq (p := isAnswered answers)
    (fun q => (questionContribution answers q).1) qs
    (fun x _ hx => by simp [questionContribution_of_not_answered hx])
  have h2 := sum_map_filter_eq (p := isAnswered answers)
    (fun q => (questionContribution answers q).2) qs
    (fun x _ hx => by simp [questionContribution_of_not_answered hx])
  rw [h1, h2]

theorem questionContribution_of_max {answers : String → Option MetaAnswer}
    {q : MetacognitionQuestion} (ht : q.type = .rating)
    (ha : answers q.id = some (.num ((effScale q : ℤ) : ℚ))) :
    questionContribution answers q = (((effScale q : ℤ) : ℚ), ((effScale q : ℤ) : ℚ)) := by
  simp [questionContribution, ha, ht]

theorem metaTotals_of_max {answers : String → Option MetaAnswer}
    {qs : List MetacognitionQuestion}
    (h : ∀ q ∈ qs, q.type = .rating ∧
      answers q.id = some (.num ((effScale q : ℤ) : ℚ)) ∧ 0 < effScale q) :
    (metaTotals answers qs).1 = (metaTotals answers qs).2 ∧
      0 ≤ (metaTotals answers qs).2 ∧
      (qs ≠ [] → 0 < (metaTotals answers qs).2) := by
  rw [metaTotals_eq_sum]
  dsimp only
  induction qs with
  | nil => simp
  | cons q qs ih =>
    obtain ⟨ht, ha, hs⟩ := h q (List.mem_cons_self q qs)
    have ih' := ih (fun r hr => h r (List.mem_cons_of_mem q hr))
    have hpos : (0 : ℚ) < ((effScale q : ℤ) : ℚ) := by exact_mod_cast hs
    simp only [List.map_cons, List.sum_cons, questionContribution_of_max ht ha]
    refine ⟨by rw [ih'.1], by linarith [ih'.2.1], fun _ => by linarith [ih'.2.1]⟩

/-- Claim C8 amended: `calculateMetacognitionScore` ignores unanswered
questions entirely (filtering them away changes nothing), equals
round(100·numerator/denominator) with 0 for an empty denominator, returns
0 when no question is answered, returns an integer that stays within
0..100 whenever every answered rating question carries a numeric answer
between 0 and its scale, and returns 100 when all questions are rating
questions answered exactly at their (positive) maximum scale.  Without
the restriction on rating answers the 0..100 bound fails (see the
counterexample: a scale-5 rating answered 10 scores 200). -/
theorem claim8_metacognitionScore (answers : String → Option MetaAnswer)
    (questions : List MetacognitionQuestion) :
    (calculateMetacognitionScore answers questions =
      calculateMetacognitionScore answers (questions.filter (isAnswered answers))) ∧
    (calculateMetacognitionScore answers questions =
      if 0 < (metaTotals answers questions).2 then
        jsRound ((metaTotals answers questions).1 / (metaTotals answers questions).2 * 100)
      else 0) ∧
    ((∀ q ∈ questions, isAnswered answers q = false) →
      calculateMetacognitionScore answers questions = 0) ∧
    ((∀ q ∈ questions, ratingAnswerOk answers q) →
      0 ≤ calculateMetacognitionScore answers questions ∧
      calculateMetacognitionScore answers questions ≤ 100) ∧
    (questions ≠ [] →
      (∀ q ∈ questions, q.type = .rating ∧
        answers q.id = some (.num ((effScale q : ℤ) : ℚ)) ∧ 0 < effScale q) →
      calculateMetacognitionScore answers questions = 100) := by
  refine ⟨?_, ?_, ?_, ?_, ?_⟩
  · -- filtering out unanswered questions does not change the score
    unfold calculateMetacognitionScore
    by_cases h0 : questions.length = 0
    · have : questions = [] := List.length_eq_zero.mp h0
      subst this
      simp
    · rw [if_neg h0]
      by_cases hf : (questions.filter (isAnswered answers)).length = 0
      · rw [if_pos hf]
        have hnil : questions.filter (isAnswered answers) = [] := List.length_eq_zero.mp hf
        have hm := (metaTotals_filter_eq answers questions).symm
        rw [hm, hnil]
        simp [metaTotals]
      · rw [if_neg hf, metaTotals_filter_eq]
  · -- the round(100·num/den) formula, 0 for zero denominator
    unfold calculateMetacognitionScore
    by_cases h0 : questions.length = 0
    · have : questions = [] := List.length_eq_zero.mp h0
      subst this
      simp [metaTotals]
    · rw [if_neg h0]
  · -- no answered question: denominator is 0, score is 0
    intro h
    have hm : (metaTotals answers questions).2 = 0 := by
      rw [metaTotals_eq_sum]
      apply List.sum_eq_zero
      intro x hx
      obtain ⟨q, hq, rfl⟩ := List.mem_map.mp hx
      rw [questionContribution_of_not_answered (h q hq)]
    unfold calculateMetacognitionScore
    by_cases h0 : questions.length = 0
    · rw [if_pos h0]
    · rw [if_neg h0, if_neg (by rw [hm]; exact lt_irrefl 0)]
  · -- 0..100 bound under well-formed rating answers
    intro h
    have hb := metaTotals_bounds h
    unfold calculateMetacognitionScore
    by_cases h0 : questions.length = 0
    · rw [if_pos h0]
      norm_num
    · rw [if_neg h0]
      by_cases hden : 0 < (metaTotals answers questions).2
      · rw [if_pos hden]
        apply jsRound_bounds
        · have := div_nonneg hb.1 (le_of_lt hden)
          linarith
        · have hq : (metaTotals answers questions).1 / (metaTotals answers questions).2 ≤ 1 :=
            (div_le_one hden).mpr hb.2
          linarith
      · rw [if_neg hden]
        norm_num
  · -- all rating questions answered at max scale: exactly 100
    intro hne h
    obtain ⟨heq, _, hpos⟩ := metaTotals_of_max h
    have hden : 0 < (metaTotals answers questions).2 := hpos hne
    unfold calculateMetacognitionScore
    rw [if_neg (by simpa [List.length_eq_zero] using hne), if_pos hden, heq,
      div_self (ne_of_gt hden), one_mul]
    norm_num [jsRound]

/-- The scale-5 rating question of the C8 scenarios. -/
def ratingQ : MetacognitionQuestion :=
  { id := "q1", text := "t", type := .rating, scale := some 5, options := none }

/-- An answers map rating the question 10 on a scale of 5. -/
def answersTen : String → Option MetaAnswer :=
  fun i => if i = "q1" then some (.num 10) else none

/-- Counterexample to C8 as stated: a scale-5 rating question answered
with the number 10 scores round(100·10/5) = 200 — the result is not
between 0 and 100. -/
theorem claim8_counterexample :
    calculateMetacognitionScore answersTen [ratingQ] = 200 ∧
    ¬ calculateMetacognitionScore answersTen [ratingQ] ≤ 100 := by
  have h : calculateMetacognitionScore answersTen [ratingQ] = 200 := by
    have hm : metaTotals answersTen [ratingQ] = (10, 5) := by
      simp [metaTotals, questionContribution, answersTen, ratingQ, effScale]
    unfold calculateMetacognitionScore
    rw [if_neg (by norm_num), hm]
    norm_num [jsRound]
  exact ⟨h, by omega⟩

/-- An answers map rating the question 5 on a scale of 5. -/
def answersMax : String → Option MetaAnswer :=
  fun i => if i = "q1" then some (.num 5) else none

/-- Witness for the amended C8: a single scale-5 rating question answered
at its maximum scores exactly 100, and the 0..100 bound holds there. -/
theorem claim8_witness :
    calculateMetacognitionScore answersMax [ratingQ] = 100 ∧
    0 ≤ calculateMetacognitionScore answersMax [ratingQ] := by
  have hmax := (claim8_metacognitionScore answersMax [ratingQ]).2.2.2.2
    (by simp)
    (by
      intro q hq
      rw [List.mem_singleton.mp hq]
      refine ⟨rfl, ?_, by norm_num [ratingQ, effScale]⟩
      show answersMax "q1" = some (.num ((effScale ratingQ : ℤ) : ℚ))
      norm_num [answersMax, ratingQ, effScale])
  have hbnd := (claim8_metacognitionScore answersMax [ratingQ]).2.2.2.1
    (by
      intro q hq
      rw [List.mem_singleton.mp hq]
      intro _ _
      refine ⟨5, by norm_num [answersMax, ratingQ], by norm_num, ?_⟩
      norm_num [ratingQ, effScale])
  exact ⟨hmax, hbnd.1⟩

/-- Model of `WeakArea` from `lib/ai-enhanced.ts`. -/
structure WeakArea where
  chapter : String
  errorRate : ℚ
  priority : String
  recommendedActions : List String
deriving DecidableEq, Repr

/-- Model of `WeaknessAnalysisResult` from `lib/ai-enhanced.ts`. -/
structure WeaknessAnalysisResult where
  averageAccuracy : ℚ
  strongAreas : List String
  overallWeakAreas : List WeakArea
  improvementTrend : String
  recommendations : List String
deriving DecidableEq, Repr

/-- One `chapterStats` record entry. -/
structure ChapterStat where
  total : ℚ
  correct : ℚ
  cards : List String
deriving DecidableEq, Repr

/-- The grouping label `deck.category || deck.title` of
`analyzeWeaknessPatterns`.  `FlashcardDeck` has a `name` field but *no*
`title` field, so `deck.title` evaluates to `undefined`; when the
category is falsy as well, the object key used for grouping is therefore
the string `"undefined"` (JS key coercion), never the deck name. -/
def chapterLabelOf (deck : FlashcardDeck) : String :=
  match deck.category with
  | some c => if c = "" then "undefined" else c
  | none => "undefined"

/-- The ease-factor → success-rate proxy of `analyzeWeaknessPatterns`. -/
def successRateOf (card : Flashcard) : ℚ :=
  if card.easeFactor ≥ 2.5 then 0.8 else if card.easeFactor ≥ 2.0 then 0.5 else 0.2

/-- Adds one card to a chapter entry (`total += repetitions`,
`correct += round(repetitions × successRate)`, push the card id). -/
def addCardStat (card : Flashcard) (st : ChapterStat) : ChapterStat :=
  { total := st.total + (card.repetitions : ℚ)
    correct := st.correct + (jsRound ((card.repetitions : ℚ) * successRateOf card) : ℚ)
    cards := st.cards ++ [card.id] }

/-- Model of `if (!chapterStats[label]) chapterStats[label] = {...}`: JS object
keys keep insertion order, modelled by an association list. -/
def ensureLabel (stats : List (String × ChapterStat)) (label : String) :
    List (String × ChapterStat) :=
  if stats.any (fun p => p.1 = label) then stats
  else stats ++ [(label, ⟨0, 0, []⟩)]

/-- In-place update of the entry with the given label. -/
def updateLabel (stats : List (String × ChapterStat)) (label : String)
    (f : ChapterStat → ChapterStat) : List (String × ChapterStat) :=
  stats.map (fun p => if p.1 = label then (p.1, f p.2) else p)

/-- The first pass of `analyzeWeaknessPatterns`: fold one deck into the
chapter statistics. -/
def addDeckStats (stats : List (String × ChapterStat)) (deck : FlashcardDeck) :
    List (String × ChapterStat) :=
  let label := chapterLabelOf deck
  deck.cards.foldl (fun s card => updateLabel s label (addCardStat card))
    (ensureLabel stats label)

/-- The full `chapterStats` table of `analyzeWeaknessPatterns`. -/
def chapterStatsOf (decks : List FlashcardDeck) : List (String × ChapterStat) :=
  decks.foldl addDeckStats []

/-- The fixed recommended actions per weak-area priority. -/
def weakActions (priority : String) : List String :=
  if priority = "high" then
    ["기본 개념 재학습 권장", "관련 카드 집중 복습", "단순 암기 → 이해 중심으로 전환"]
  else if priority = "medium" then
    ["복습 간격 줄이기", "유사 문제 연습"]
  else
    ["정기 복습 유지"]

/-- The second pass of `analyzeWeaknessPatterns` over `Object.entries` in
insertion order: strong areas, weak areas, and the attempted/correct
grand totals (entries with zero attempts are skipped). -/
def classifyStats (stats : List (String × ChapterStat)) :
    List String × List WeakArea × ℚ × ℚ :=
  stats.foldl
    (fun acc p =>
      if p.2.total = 0 then acc
      else
        let accuracy := p.2.correct / p.2.total
        let tc := acc.2.2.1 + p.2.total
        let tcc := acc.2.2.2 + p.2.correct
        if accuracy ≥ 0.8 then (acc.1 ++ [p.1], acc.2.1, tc, tcc)
        else
          let errorRate := 1 - accuracy
          let priority :=
            if errorRate ≥ 0.6 then "high" else if errorRate ≥ 0.4 then "medium" else "low"
          (acc.1,
            acc.2.1 ++ [WeakArea.mk p.1 errorRate priority (weakActions priority)],
            tc, tcc))
    ([], [], 0, 0)

/-- Model of `pOrder` in the weak-area sort. -/
def pOrder (s : String) : ℤ :=
  if s = "high" then 0 else if s = "medium" then 1 else 2

/-- Model of `analyzeWeaknessPatterns` from `lib/ai-enhanced.ts`. -/
def analyzeWeaknessPatterns (decks : List FlashcardDeck) : WeaknessAnalysisResult :=
  let stats := chapterStatsOf decks
  let classified := classifyStats stats
  let strongAreas := classified.1
  let totalCards := classified.2.2.1
  let totalCorrectCards := classified.2.2.2
  let sortedWeak := classified.2.1.mergeSort
    (fun a b => decide (pOrder a.priority ≤ pOrder b.priority))
  let averageAccuracy := if totalCards > 0 then totalCorrectCards / totalCards else 0
  let weakShare : ℚ := (sortedWeak.length : ℚ) /
    (((if stats.length = 0 then 1 else stats.length) : ℕ) : ℚ)
  let improvementTrend :=
    if weakShare < 0.3 then "improving" else if weakShare < 0.6 then "stable" else "declining"
  let recs1 := match sortedWeak with
    | [] => ([] : List String)
    | w :: _ => ["약점 과목 \"" ++ w.chapter ++ "\"에 학습 시간 집중 필요"]
  let recs2 := match strongAreas with
    | [] => ([] : List String)
    | s :: _ => ["강점 과목 \"" ++ s ++ "\"의 복습 간격을 늘려 효율 향상"]
  let recs3 := if averageAccuracy < 0.6 then ["전체 정확도가 낮으므로 기본 개념 강화 권장"]
    else ([] : List String)
  { averageAccuracy := averageAccuracy
    strongAreas := strongAreas
    overallWeakAreas := sortedWeak
    improvementTrend := improvementTrend
    recommendations := recs1 ++ recs2 ++ recs3 ++
      ["매일 약 30분씩 약점 카드를 우선 복습하세요",
       "강점 과목과 약점 과목을 교대로 학습하여 효과 극대화"] }

/-- A once-reviewed easy card for the weakness-analysis sample. -/
def reviewedCard : Flashcard :=
  { id := "c1"
    front := "f"
    back := "b"
    difficulty := "medium"
    easeFactor := 2.5
    interval := 6
    repetitions := 1
    nextReviewDate := 0
    lastReviewDate := none
    tags := none }

/-- A deck named 수학 with no category — the C7 failing input. -/
def mathDeck : FlashcardDeck :=
  { id := "d1"
    name := "수학"
    description := ""
    cards := [reviewedCard]
    createdAt := 0
    updatedAt := 0
    tags := none
    category := none }

/-- Claim C7 is the spec's intent but the code is wrong: for a deck with
no category, `analyzeWeaknessPatterns` groups its cards under the object
key `"undefined"` — because the fallback reads `deck.title`, a field that
does not exist on `FlashcardDeck` (the deck's name lives in `name`) — and
never under the deck name.  Shown here on a deck named 수학: its topic is
reported as "undefined". -/
theorem claim7_undefinedLabelBug :
    chapterLabelOf mathDeck = "undefined" ∧
    chapterLabelOf mathDeck ≠ mathDeck.name ∧
    (analyzeWeaknessPatterns [mathDeck]).strongAreas = ["undefined"] ∧
    (analyzeWeaknessPatterns [mathDeck]).strongAreas ≠ [mathDeck.name] := by
  have h1 : chapterStatsOf [mathDeck] = [("undefined", ⟨1, 1, ["c1"]⟩)] := by
    simp [chapterStatsOf, addDeckStats, mathDeck, ensureLabel, updateLabel, addCardStat,
      chapterLabelOf, successRateOf, reviewedCard]
    norm_num [jsRound]
  have h2 : (analyzeWeaknessPatterns [mathDeck]).strongAreas = ["undefined"] := by
    simp only [analyzeWeaknessPatterns, h1, classifyStats, List.foldl_cons, List.foldl_nil]
    norm_num
  refine ⟨rfl, by decide, h2, ?_⟩
  rw [h2]
  decide
